import Mathlib

/-!
Verification of the tiling / enhancement / collation pipeline in `clarify.py`.

The script is shallowly embedded:
* a raster image (`PIL.Image`) becomes `PImage`: a width, a height and a
  total pixel function (pixel values are abstracted to `ℕ`);
* `Image.crop`, `Image.paste` and `Image.new` become `PImage.crop`,
  `PImage.paste` and `newImage`, with the PIL semantics (crop reads from
  the source at the offset rectangle, paste overwrites a clipped block
  and never changes the canvas dimensions);
* `Image.resize` with the LANCZOS kernel is abstracted as a `resample`
  function parameter: the theorems only assume the facts they need of it
  (at most that resizing an image to its own size is the identity);
* Python float arithmetic in `resize_to_nearest_1024` is modelled
  exactly over `ℚ` (true division, `math.ceil` as `Int.ceil`);
* the file system is modelled by pairing each written tile path with the
  image written there; JPEG encoding at quality 95 is treated as lossless;
* the remote gradio service is an external collaborator: its observable
  behaviour during one `process_tiles` call is a `RemoteOutcome` value,
  and the status-report file is modelled as the list of lines written.
-/

/-- A raster image: dimensions plus a total pixel function.  `pix x y`
is only meaningful for `x < width`, `y < height`. -/
structure PImage where
  width : Nat
  height : Nat
  pix : Nat → Nat → Nat

/-- `Image.new('RGB', (w, h))`: a blank (all-zero) canvas. -/
def newImage (w h : Nat) : PImage :=
  ⟨w, h, fun _ _ => 0⟩

/-- `img.crop((left, top, right, bottom))` for an in-bounds box: the
`(right - left) × (bottom - top)` sub-image reading from the source at
the offset position. -/
def PImage.crop (img : PImage) (left top right bottom : Nat) : PImage :=
  ⟨right - left, bottom - top, fun x y => img.pix (left + x) (top + y)⟩

/-- `canvas.paste(tile, (left, top))`: overwrite the block at the given
(possibly negative) offset; writes outside the canvas are clipped, and
the canvas dimensions never change. -/
def PImage.paste (canvas tile : PImage) (left top : Int) : PImage :=
  ⟨canvas.width, canvas.height, fun x y =>
    if left ≤ (x : Int) ∧ (x : Int) < left + tile.width ∧
       top ≤ (y : Int) ∧ (y : Int) < top + tile.height then
      tile.pix ((x : Int) - left).toNat ((y : Int) - top).toNat
    else canvas.pix x y⟩

/-- `math.ceil(q / 1024) * 1024`, the rounding step used throughout
`resize_to_nearest_1024`. -/
def ceilMul1024 (q : ℚ) : ℤ :=
  ⌈q / 1024⌉ * 1024

/-- The dimension computation of `resize_to_nearest_1024` (clarify.py
lines 20-39), with Python's float division modelled exactly in `ℚ`:
width is rounded up to a multiple of 1024, the height derived from the
aspect ratio is rounded up likewise, and if the resulting aspect ratio
differs from the original by more than 0.01 the width is recomputed
from the rounded height. -/
def resize_to_nearest_1024_dims (W H : ℕ) : ℤ × ℤ :=
  let aspect_ratio : ℚ := (W : ℚ) / (H : ℚ)
  let new_width : ℤ := ceilMul1024 (W : ℚ)
  let new_height : ℤ := ceilMul1024 ((new_width : ℚ) / aspect_ratio)
  let adjusted_aspect_ratio : ℚ := (new_width : ℚ) / (new_height : ℚ)
  if |adjusted_aspect_ratio - aspect_ratio| > 1 / 100 then
    (ceilMul1024 ((new_height : ℚ) * aspect_ratio), new_height)
  else
    (new_width, new_height)

/-- `resize_to_nearest_1024` itself: compute the target dimensions and
resample the image to them (the Lanczos kernel is the `resample`
parameter). -/
def resize_to_nearest_1024 (resample : PImage → Nat → Nat → PImage)
    (img : PImage) : PImage :=
  let d := resize_to_nearest_1024_dims img.width img.height
  resample img d.1.toNat d.2.toNat

-- A quick sanity check that literal strings reduce (used later).
example : "ab".data = ['a', 'b'] := rfl

theorem le_ceilMul1024 (q : ℚ) : q ≤ (ceilMul1024 q : ℚ) := by
  unfold ceilMul1024
  have h := Int.le_ceil (q / 1024)
  have h2 : q / 1024 * 1024 ≤ (⌈q / 1024⌉ : ℚ) * 1024 := by
    exact mul_le_mul_of_nonneg_right h (by norm_num)
  rw [div_mul_cancel₀ q (by norm_num : (1024 : ℚ) ≠ 0)] at h2
  exact_mod_cast h2

theorem ceilMul1024_ge_1024 {q : ℚ} (hq : 0 < q) : 1024 ≤ ceilMul1024 q := by
  unfold ceilMul1024
  have h : 0 < ⌈q / 1024⌉ := Int.ceil_pos.mpr (by positivity)
  nlinarith

theorem dvd_ceilMul1024 (q : ℚ) : (1024 : ℤ) ∣ ceilMul1024 q :=
  ⟨⌈q / 1024⌉, mul_comm _ _⟩

/-- C4: for every original image size `(W, H)` with `W, H ≥ 1`, the
Resizer's dimension computation (a pure function, hence deterministic)
yields `(W', H')` with `W' ≥ W`, `H' ≥ H`, both exact multiples of 1024
and both at least 1024 (in particular positive multiples). -/
theorem resize_to_nearest_1024_ceil_policy (W H : ℕ) (hW : 1 ≤ W) (hH : 1 ≤ H) :
    (W : ℤ) ≤ (resize_to_nearest_1024_dims W H).1 ∧
    (H : ℤ) ≤ (resize_to_nearest_1024_dims W H).2 ∧
    (1024 : ℤ) ∣ (resize_to_nearest_1024_dims W H).1 ∧
    (1024 : ℤ) ∣ (resize_to_nearest_1024_dims W H).2 ∧
    (1024 : ℤ) ≤ (resize_to_nearest_1024_dims W H).1 ∧
    (1024 : ℤ) ≤ (resize_to_nearest_1024_dims W H).2 := by
  have hWq : (0 : ℚ) < (W : ℚ) := by exact_mod_cast hW
  have hHq : (0 : ℚ) < (H : ℚ) := by exact_mod_cast hH
  have haspect : 0 < (W : ℚ) / (H : ℚ) := div_pos hWq hHq
  have hWnw : (W : ℚ) ≤ (ceilMul1024 (W : ℚ) : ℚ) := le_ceilMul1024 _
  have hnwpos : (0 : ℚ) < (ceilMul1024 (W : ℚ) : ℚ) := lt_of_lt_of_le hWq hWnw
  -- the (pre-rounding) derived height is at least H
  have hHnh : (H : ℚ) ≤ (ceilMul1024 (W : ℚ) : ℚ) / ((W : ℚ) / (H : ℚ)) := by
    rw [le_div_iff₀ haspect]
    have hHW : (H : ℚ) * ((W : ℚ) / (H : ℚ)) = (W : ℚ) := by
      field_simp
    rw [hHW]
    exact hWnw
  have hnhpos : (0 : ℚ) < (ceilMul1024 (W : ℚ) : ℚ) / ((W : ℚ) / (H : ℚ)) :=
    lt_of_lt_of_le hHq hHnh
  have hH2 : (H : ℚ) ≤
      (ceilMul1024 ((ceilMul1024 (W : ℚ) : ℚ) / ((W : ℚ) / (H : ℚ))) : ℚ) :=
    le_trans hHnh (le_ceilMul1024 _)
  have hNH1024 : (1024 : ℤ) ≤
      ceilMul1024 ((ceilMul1024 (W : ℚ) : ℚ) / ((W : ℚ) / (H : ℚ))) :=
    ceilMul1024_ge_1024 hnhpos
  -- the corrected width (if the tolerance test fires) is also ≥ W
  have hcorr : (W : ℚ) ≤
      (ceilMul1024 ((ceilMul1024 (W : ℚ) : ℚ) / ((W : ℚ) / (H : ℚ))) : ℚ) *
        ((W : ℚ) / (H : ℚ)) := by
    have hstep : (ceilMul1024 (W : ℚ) : ℚ) / ((W : ℚ) / (H : ℚ)) ≤
        (ceilMul1024 ((ceilMul1024 (W : ℚ) : ℚ) / ((W : ℚ) / (H : ℚ))) : ℚ) :=
      le_ceilMul1024 _
    have hmul := mul_le_mul_of_nonneg_right hstep (le_of_lt haspect)
    rw [div_mul_cancel₀ _ (ne_of_gt haspect)] at hmul
    exact le_trans hWnw hmul
  have hcorrpos : (0 : ℚ) <
      (ceilMul1024 ((ceilMul1024 (W : ℚ) : ℚ) / ((W : ℚ) / (H : ℚ))) : ℚ) *
        ((W : ℚ) / (H : ℚ)) := lt_of_lt_of_le hWq hcorr
  simp only [resize_to_nearest_1024_dims]
  split_ifs with hc
  · refine ⟨?_, ?_, dvd_ceilMul1024 _, dvd_ceilMul1024 _, ?_, ?_⟩
    · exact_mod_cast le_trans hcorr (le_ceilMul1024 _)
    · exact_mod_cast hH2
    · exact ceilMul1024_ge_1024 hcorrpos
    · exact hNH1024
  · refine ⟨?_, ?_, dvd_ceilMul1024 _, dvd_ceilMul1024 _, ?_, ?_⟩
    · exact_mod_cast hWnw
    · exact_mod_cast hH2
    · exact ceilMul1024_ge_1024 hWq
    · exact hNH1024

/-- Witness for `resize_to_nearest_1024_ceil_policy` at the spec's own
scenario, an 800 × 600 source. -/
theorem resize_to_nearest_1024_ceil_policy_witness :
    (800 : ℤ) ≤ (resize_to_nearest_1024_dims 800 600).1 ∧
    (600 : ℤ) ≤ (resize_to_nearest_1024_dims 800 600).2 ∧
    (1024 : ℤ) ∣ (resize_to_nearest_1024_dims 800 600).1 ∧
    (1024 : ℤ) ∣ (resize_to_nearest_1024_dims 800 600).2 ∧
    (1024 : ℤ) ≤ (resize_to_nearest_1024_dims 800 600).1 ∧
    (1024 : ℤ) ≤ (resize_to_nearest_1024_dims 800 600).2 :=
  resize_to_nearest_1024_ceil_policy 800 600 (by decide) (by decide)

/-- C5: for every original size, either the chosen dimensions keep the
aspect ratio within the 0.01 tolerance (`|W'/H' - W/H| ≤ 1/100`, the
source's own test), or the documented one-shot correction — recomputing
`W'` from `H'` and the original aspect ratio, rounded up to a multiple
of 1024 — has been applied. -/
theorem resize_to_nearest_1024_aspect_tolerance (W H : ℕ) :
    |((resize_to_nearest_1024_dims W H).1 : ℚ) /
        ((resize_to_nearest_1024_dims W H).2 : ℚ) - (W : ℚ) / (H : ℚ)| ≤ 1 / 100 ∨
    (resize_to_nearest_1024_dims W H).1 =
      ceilMul1024 (((resize_to_nearest_1024_dims W H).2 : ℚ) * ((W : ℚ) / (H : ℚ))) := by
  simp only [resize_to_nearest_1024_dims]
  split_ifs with hc
  · right; rfl
  · left
    push_neg at hc
    simpa using hc

/-! ## Filenames and the `R(\d+)C(\d+)` pattern

`collate_tiles` recovers grid coordinates with
`re.compile(r'R(\d+)C(\d+)').search(os.path.basename(path))`.  With both
`\d+` greedy and no digit able to double as `'C'`, the regex engine's
search is: at the leftmost position where an `'R'` is followed by a
maximal non-empty digit run, a `'C'` and another non-empty digit run,
return the two runs.  `searchRC` implements exactly that.  Digits are
taken as ASCII (the only digits the Tiler ever writes). -/

/-- ASCII decimal digit test (`\d` of the pattern). -/
def isDig (c : Char) : Bool := c.isDigit

/-- `int()` on a string of decimal digits. -/
def digitsVal (ds : List Char) : ℕ :=
  ds.foldl (fun a c => 10 * a + (c.toNat - 48)) 0

/-- Try to match `R(\d+)C(\d+)` at the head of the character list. -/
def matchRC (cs : List Char) : Option (ℕ × ℕ) :=
  match cs with
  | [] => none
  | c :: rest =>
    if c = 'R' then
      let d1 := rest.takeWhile isDig
      if d1 = [] then none
      else
        match rest.dropWhile isDig with
        | [] => none
        | c2 :: rest2 =>
          if c2 = 'C' then
            let d2 := rest2.takeWhile isDig
            if d2 = [] then none else some (digitsVal d1, digitsVal d2)
          else none
    else none

/-- `re.search`: first position (left to right) where the pattern
matches. -/
def searchRC : List Char → Option (ℕ × ℕ)
  | [] => none
  | c :: cs =>
    match matchRC (c :: cs) with
    | some p => some p
    | none => searchRC cs

/-- The regex search applied to a string, as in `collate_tiles`. -/
def parseRC (s : String) : Option (ℕ × ℕ) := searchRC s.data

/-- `os.path.basename`: the part of the path after the last separator. -/
def basename (s : String) : String :=
  ⟨((s.data.reverse).takeWhile (fun c => c ≠ '/')).reverse⟩

/-- The stem part of `os.path.splitext`: cut at the last dot, unless
every character before that dot is itself a dot (CPython's rule). -/
def splitextBase (s : String) : String :=
  if '.' ∈ s.data then
    let pre := (((s.data.reverse).dropWhile (fun c => c ≠ '.')).drop 1).reverse
    if pre.any (fun c => c ≠ '.') then ⟨pre⟩ else s
  else s

/-- `os.path.join` for a directory and a plain file name. -/
def pathJoin (dir name : String) : String := dir ++ "/" ++ name

/-- Decimal rendering of a natural number, as Python's `str`/f-string
interpolation produces it. -/
def natDigits (n : ℕ) : List Char :=
  if _h : n < 10 then [Nat.digitChar n]
  else natDigits (n / 10) ++ [Nat.digitChar (n % 10)]
termination_by n
decreasing_by
  simp_wf
  omega

/-- `f"{base_name}R{row + 1}C{col + 1}.jpg"` (clarify.py line 71), for
the 0-based loop indices `row`, `col`. -/
def tileFileName (base_name : String) (row col : ℕ) : String :=
  base_name ++ "R" ++ ⟨natDigits (row + 1)⟩ ++ "C" ++ ⟨natDigits (col + 1)⟩ ++ ".jpg"

/-! ### List and digit lemmas for the pattern search -/

theorem takeWhile_append_stop {p : Char → Bool} {x : Char} (l tl : List Char)
    (hx : p x = false) :
    (l ++ x :: tl).takeWhile p = l.takeWhile p := by
  induction l with
  | nil => simp [List.takeWhile, hx]
  | cons a l ih =>
    simp only [List.cons_append, List.takeWhile]
    cases p a <;> simp [ih]

theorem dropWhile_append_stop {p : Char → Bool} {x : Char} (l tl : List Char)
    (hx : p x = false) :
    (l ++ x :: tl).dropWhile p = l.dropWhile p ++ x :: tl := by
  induction l with
  | nil => simp [List.dropWhile, hx]
  | cons a l ih =>
    simp only [List.cons_append, List.dropWhile]
    cases p a <;> simp [ih]

theorem takeWhile_eq_self_of_all {p : Char → Bool} {l : List Char}
    (h : ∀ a ∈ l, p a = true) : l.takeWhile p = l := by
  induction l with
  | nil => rfl
  | cons a l ih =>
    simp only [List.takeWhile, h a (by simp)]
    simp only [List.cons.injEq, true_and]
    exact ih fun a ha => h a (by simp [ha])

theorem dropWhile_eq_nil_of_all {p : Char → Bool} {l : List Char}
    (h : ∀ a ∈ l, p a = true) : l.dropWhile p = [] := by
  induction l with
  | nil => rfl
  | cons a l ih =>
    simp only [List.dropWhile, h a (by simp)]
    exact ih fun a ha => h a (by simp [ha])

theorem natDigits_ne_nil (n : ℕ) : natDigits n ≠ [] := by
  rw [natDigits]
  split_ifs with h
  · simp
  · simp

theorem digitChar_isDig {n : ℕ} (h : n < 10) : isDig (Nat.digitChar n) = true := by
  interval_cases n <;> rfl

theorem digitChar_toNat {n : ℕ} (h : n < 10) : (Nat.digitChar n).toNat = 48 + n := by
  interval_cases n <;> rfl

theorem natDigits_all_digits (n : ℕ) : ∀ c ∈ natDigits n, isDig c = true := by
  induction n using Nat.strong_induction_on with
  | _ n ih =>
    rw [natDigits]
    split_ifs with h
    · intro c hc
      simp only [List.mem_singleton] at hc
      subst hc
      exact digitChar_isDig h
    · intro c hc
      rw [List.mem_append] at hc
      rcases hc with hc | hc
      · exact ih (n / 10) (by omega) c hc
      · simp only [List.mem_singleton] at hc
        subst hc
        exact digitChar_isDig (by omega)

theorem digitsVal_natDigits (n : ℕ) : digitsVal (natDigits n) = n := by
  induction n using Nat.strong_induction_on with
  | _ n ih =>
    rw [natDigits]
    split_ifs with h
    · simp only [digitsVal, List.foldl_cons, List.foldl_nil]
      rw [digitChar_toNat h]
      omega
    · simp only [digitsVal, List.foldl_append, List.foldl_cons, List.foldl_nil]
      have hv := ih (n / 10) (by omega)
      simp only [digitsVal] at hv
      rw [hv, digitChar_toNat (by omega : n % 10 < 10)]
      omega

/-- A match attempt starting strictly inside `c :: bs` cannot use the
appended `'R' :: tl`: `'R'` is neither a digit nor `'C'`, so every
greedy digit run and the `'C'` test stop at the boundary. -/
theorem matchRC_append_R (c : Char) (bs tl : List Char) :
    matchRC (c :: (bs ++ 'R' :: tl)) = matchRC (c :: bs) := by
  have hR : isDig 'R' = false := rfl
  simp only [matchRC]
  by_cases hc : c = 'R'
  · subst hc
    simp only [if_pos rfl]
    rw [takeWhile_append_stop bs tl hR, dropWhile_append_stop bs tl hR]
    by_cases hd1 : bs.takeWhile isDig = []
    · simp [hd1]
    · simp only [if_neg hd1]
      cases hbs : bs.dropWhile isDig with
      | nil => simp
      | cons c2 rest2 =>
        simp only [List.cons_append]
        by_cases hc2 : c2 = 'C'
        · subst hc2
          simp only [if_pos rfl]
          rw [takeWhile_append_stop rest2 tl hR]
        · simp [hc2]
  · simp [hc]

/-- If no position inside `base` matches the pattern, searching
`base ++ 'R' :: tl` is searching `'R' :: tl`. -/
theorem searchRC_append_of_none (base tl : List Char)
    (h : searchRC base = none) :
    searchRC (base ++ 'R' :: tl) = searchRC ('R' :: tl) := by
  induction base with
  | nil => simp
  | cons c bs ih =>
    cases hm : matchRC (c :: bs) with
    | some p =>
      rw [searchRC, hm] at h
      exact absurd h (by simp)
    | none =>
      rw [searchRC, hm] at h
      rw [List.cons_append, searchRC, matchRC_append_R c bs tl, hm]
      exact ih h

/-- The pattern matches the Tiler's suffix `R{r}C{c}.…` head-on and
recovers the two numbers. -/
theorem matchRC_digits (r c : ℕ) (tl : List Char) :
    matchRC ('R' :: (natDigits r ++ 'C' :: (natDigits c ++ '.' :: tl))) = some (r, c) := by
  have hC : isDig 'C' = false := rfl
  have hdot : isDig '.' = false := rfl
  simp only [matchRC, if_pos rfl]
  rw [takeWhile_append_stop _ _ hC, dropWhile_append_stop _ _ hC,
    takeWhile_eq_self_of_all (natDigits_all_digits r),
    dropWhile_eq_nil_of_all (natDigits_all_digits r)]
  simp only [if_neg (natDigits_ne_nil r), List.nil_append, if_pos rfl]
  rw [takeWhile_append_stop _ _ hdot,
    takeWhile_eq_self_of_all (natDigits_all_digits c)]
  simp [natDigits_ne_nil c, digitsVal_natDigits]

theorem mem_takeWhile_pred {p : Char → Bool} {l : List Char} {a : Char}
    (h : a ∈ l.takeWhile p) : p a = true := by
  induction l with
  | nil => simp [List.takeWhile] at h
  | cons b l ih =>
    rw [List.takeWhile_cons] at h
    by_cases hb : p b
    · rw [if_pos hb] at h
      rcases List.mem_cons.mp h with rfl | h
      · exact hb
      · exact ih h
    · rw [if_neg hb] at h
      simp at h

theorem basename_no_slash (s : String) : '/' ∉ (basename s).data := by
  intro h
  unfold basename at h
  rw [List.mem_reverse] at h
  have := mem_takeWhile_pred h
  simp at this

theorem splitextBase_no_slash {s : String} (hs : '/' ∉ s.data) :
    '/' ∉ (splitextBase s).data := by
  simp only [splitextBase]
  split_ifs with h1 h2
  · intro hmem
    apply hs
    have hmem' : '/' ∈ (((s.data.reverse).dropWhile (fun c => c ≠ '.')).drop 1).reverse :=
      hmem
    rw [List.mem_reverse] at hmem'
    exact (List.mem_reverse).mp (List.dropWhile_subset _ (List.mem_of_mem_drop hmem'))
  · exact hs
  · exact hs

theorem basename_pathJoin {name : String} (dir : String)
    (h : '/' ∉ name.data) : basename (pathJoin dir name) = name := by
  have hall : ∀ a ∈ name.data.reverse, (fun c => decide (c ≠ '/')) a = true := by
    intro a ha
    rw [List.mem_reverse] at ha
    simp only [decide_eq_true_eq]
    rintro rfl
    exact h ha
  unfold basename pathJoin
  have hdata : (dir ++ "/" ++ name).data = dir.data ++ '/' :: name.data := by
    have h1 : ("/" : String).data = ['/'] := rfl
    simp [String.data_append, h1]
  rw [hdata]
  have hrev : ((dir.data ++ '/' :: name.data).reverse : List Char)
      = name.data.reverse ++ '/' :: dir.data.reverse := by
    simp
  rw [hrev, takeWhile_append_stop _ _ (by simp), takeWhile_eq_self_of_all hall]
  simp

theorem tileFileName_data (base : String) (row col : ℕ) :
    (tileFileName base row col).data
      = base.data ++ 'R' :: (natDigits (row + 1) ++ 'C' ::
          (natDigits (col + 1) ++ '.' :: ['j', 'p', 'g'])) := by
  unfold tileFileName
  have hR : ("R" : String).data = ['R'] := rfl
  have hC : ("C" : String).data = ['C'] := rfl
  have hjpg : (".jpg" : String).data = ['.', 'j', 'p', 'g'] := rfl
  simp [String.data_append, hR, hC, hjpg]

theorem tileFileName_no_slash {base : String} (hb : '/' ∉ base.data)
    (row col : ℕ) : '/' ∉ (tileFileName base row col).data := by
  rw [tileFileName_data]
  intro hmem
  rcases List.mem_append.mp hmem with hmem | hmem
  · exact hb hmem
  · rcases List.mem_cons.mp hmem with hmem | hmem
    · exact absurd hmem (by decide)
    rcases List.mem_append.mp hmem with hmem | hmem
    · have := natDigits_all_digits (row + 1) _ hmem
      simp [isDig] at this
    rcases List.mem_cons.mp hmem with hmem | hmem
    · exact absurd hmem (by decide)
    rcases List.mem_append.mp hmem with hmem | hmem
    · have := natDigits_all_digits (col + 1) _ hmem
      simp [isDig] at this
    · simp at hmem

/-- The coordinates the Collator's regex recovers from a tile path the
Tiler wrote: provided the base name itself contains no occurrence of
the pattern, the parse returns exactly the 1-based pair that was
encoded. -/
theorem parseRC_tilePath (dir base : String) (row col : ℕ)
    (hb : searchRC base.data = none) (hslash : '/' ∉ base.data) :
    parseRC (basename (pathJoin dir (tileFileName base row col)))
      = some (row + 1, col + 1) := by
  rw [basename_pathJoin dir (tileFileName_no_slash hslash row col)]
  unfold parseRC
  rw [tileFileName_data, searchRC_append_of_none _ _ hb, searchRC,
    matchRC_digits]

/-! ## The Tiler (`split_image`) -/

/-- What `split_image` returns.  On a decode failure the Python
function returns the bare empty list `[]`; on success it returns the
3-tuple `(tile_paths, rows, cols)`.  (The asymmetry matters: the caller
unpacks three values.) -/
inductive SplitResult where
  | failed
  | ok (tiles : List (String × PImage)) (rows cols : ℕ)

/-- `split_image` (clarify.py lines 41-78).  `decoded` is the outcome
of `Image.open(image_path)` (`none`: the open/decode raised, the
handler logs and returns `[]`).  On success the image is resized, the
grid dimensions are integer divisions of the resized size by 1024, and
the nested row/column loops crop and save one 1024 × 1024 tile each,
returning the ordered path list together with `(rows, cols)`. -/
def split_image (resample : PImage → ℕ → ℕ → PImage)
    (decoded : Option PImage) (image_path output_dir : String) : SplitResult :=
  match decoded with
  | none => SplitResult.failed
  | some img =>
    let base_name := splitextBase (basename image_path)
    let resized_img := resize_to_nearest_1024 resample img
    let rows := resized_img.height / 1024
    let cols := resized_img.width / 1024
    SplitResult.ok
      ((List.range rows).flatMap fun row =>
        (List.range cols).map fun col =>
          (pathJoin output_dir (tileFileName base_name row col),
           resized_img.crop (col * 1024) (row * 1024)
             (col * 1024 + 1024) (row * 1024 + 1024)))
      rows cols

/-- On dimensions that are already positive multiples of 1024 the
Resizer's dimension computation is the identity. -/
theorem resize_dims_multiple (rows cols : ℕ) (hr : 1 ≤ rows) (hc : 1 ≤ cols) :
    resize_to_nearest_1024_dims (cols * 1024) (rows * 1024)
      = (((cols * 1024 : ℕ) : ℤ), ((rows * 1024 : ℕ) : ℤ)) := by
  have h1024 : ((1024 : ℚ)) ≠ 0 := by norm_num
  have hcol : (0 : ℚ) < ((cols * 1024 : ℕ) : ℚ) := by
    have : 0 < cols * 1024 := by positivity
    exact_mod_cast this
  have hrow : (0 : ℚ) < ((rows * 1024 : ℕ) : ℚ) := by
    have : 0 < rows * 1024 := by positivity
    exact_mod_cast this
  have hceilW : ceilMul1024 ((cols * 1024 : ℕ) : ℚ) = ((cols * 1024 : ℕ) : ℤ) := by
    unfold ceilMul1024
    have hdiv : ((cols * 1024 : ℕ) : ℚ) / 1024 = ((cols : ℕ) : ℚ) := by
      push_cast
      field_simp
    rw [hdiv, Int.ceil_natCast]
    push_cast
    ring
  have hceilH : ceilMul1024 ((rows * 1024 : ℕ) : ℚ) = ((rows * 1024 : ℕ) : ℤ) := by
    unfold ceilMul1024
    have hdiv : ((rows * 1024 : ℕ) : ℚ) / 1024 = ((rows : ℕ) : ℚ) := by
      push_cast
      field_simp
    rw [hdiv, Int.ceil_natCast]
    push_cast
    ring
  simp only [resize_to_nearest_1024_dims, hceilW]
  have hdivaspect : ((((cols * 1024 : ℕ) : ℤ)) : ℚ) /
      (((cols * 1024 : ℕ) : ℚ) / ((rows * 1024 : ℕ) : ℚ))
        = ((rows * 1024 : ℕ) : ℚ) := by
    push_cast
    rw [div_div_eq_mul_div, mul_comm, mul_div_assoc,
      div_self (by exact_mod_cast ne_of_gt hcol), mul_one]
  rw [hdivaspect, hceilH]
  rw [if_neg]
  push_neg
  have heq : ((((cols * 1024 : ℕ) : ℤ)) : ℚ) / ((((rows * 1024 : ℕ) : ℤ)) : ℚ)
      = ((cols * 1024 : ℕ) : ℚ) / ((rows * 1024 : ℕ) : ℚ) := by
    push_cast
    ring
  rw [heq, sub_self, abs_zero]
  norm_num

/-- One iteration of the Tiler's nested loops, as a function of the
0-based `(row, col)` pair: the saved path and the cropped tile. -/
def tileEntry (img : PImage) (output_dir base_name : String)
    (rc : ℕ × ℕ) : String × PImage :=
  (pathJoin output_dir (tileFileName base_name rc.1 rc.2),
   img.crop (rc.2 * 1024) (rc.1 * 1024) (rc.2 * 1024 + 1024) (rc.1 * 1024 + 1024))

/-- On an image whose dimensions are positive multiples of 1024 (and a
resampler that is the identity at the image's own size, as Lanczos is),
`split_image` succeeds and produces exactly the grid of crops indexed
by `(range rows) ×ˢ (range cols)`. -/
theorem split_image_on_multiple (resample : PImage → ℕ → ℕ → PImage)
    (img : PImage) (image_path output_dir : String) (rows cols : ℕ)
    (hr : 1 ≤ rows) (hc : 1 ≤ cols)
    (hw : img.width = cols * 1024) (hh : img.height = rows * 1024)
    (hid : resample img img.width img.height = img) :
    split_image resample (some img) image_path output_dir
      = SplitResult.ok
          (((List.range rows) ×ˢ (List.range cols)).map
            (tileEntry img output_dir (splitextBase (basename image_path))))
          rows cols := by
  have hres : resample img (cols * 1024) (rows * 1024) = img := by
    rw [← hw, ← hh]
    exact hid
  simp only [split_image, resize_to_nearest_1024]
  rw [hw, hh, resize_dims_multiple rows cols hr hc]
  simp only [Int.toNat_natCast]
  rw [hres, hh, hw,
    Nat.mul_div_cancel _ (by norm_num : (0 : ℕ) < 1024),
    Nat.mul_div_cancel _ (by norm_num : (0 : ℕ) < 1024)]
  rw [show ((List.range rows) ×ˢ (List.range cols))
      = (List.range rows).flatMap (fun r => (List.range cols).map (Prod.mk r)) from rfl,
    List.map_flatMap]
  have hfun : (fun row => List.map
        (fun col =>
          (pathJoin output_dir (tileFileName (splitextBase (basename image_path)) row col),
            img.crop (col * 1024) (row * 1024) (col * 1024 + 1024) (row * 1024 + 1024)))
        (List.range cols))
      = (fun a => List.map (tileEntry img output_dir (splitextBase (basename image_path)))
          (List.map (Prod.mk a) (List.range cols))) := by
    funext row
    rw [List.map_map]
    rfl
  rw [hfun]

/-- C3: on a resized image whose width `W' = cols·1024` and height
`H' = rows·1024` are positive multiples of the tile edge, the Tiler
produces exactly `(W'/1024)·(H'/1024)` tiles, each one a 1024 × 1024
crop of the image at its grid rectangle, and the 1-based `(row, col)`
labels recovered from the tile filenames are pairwise distinct and
range over exactly `{1..rows} × {1..cols}`; moreover every pixel of the
image is covered by exactly one labelled tile rectangle (no gaps, no
overlaps).  The base name is assumed to contain no occurrence of the
`R(digits)C(digits)` pattern itself (otherwise the filename encoding is
not injective). -/
theorem split_image_grid_bijection (resample : PImage → ℕ → ℕ → PImage)
    (img : PImage) (image_path output_dir : String) (rows cols : ℕ)
    (hr : 1 ≤ rows) (hc : 1 ≤ cols)
    (hw : img.width = cols * 1024) (hh : img.height = rows * 1024)
    (hid : resample img img.width img.height = img)
    (hbase : searchRC (splitextBase (basename image_path)).data = none) :
    ∃ tiles, split_image resample (some img) image_path output_dir
        = SplitResult.ok tiles rows cols
      ∧ tiles.length = (img.width / 1024) * (img.height / 1024)
      ∧ (∀ e ∈ tiles, (e.2).width = 1024 ∧ (e.2).height = 1024)
      ∧ (tiles.map fun e => parseRC (basename e.1)).Nodup
      ∧ (∀ r c : ℕ, some (r, c) ∈ (tiles.map fun e => parseRC (basename e.1))
            ↔ 1 ≤ r ∧ r ≤ rows ∧ 1 ≤ c ∧ c ≤ cols)
      ∧ (∀ e ∈ tiles, ∀ r c : ℕ, parseRC (basename e.1) = some (r, c) →
            e.2 = img.crop ((c - 1) * 1024) ((r - 1) * 1024)
              ((c - 1) * 1024 + 1024) ((r - 1) * 1024 + 1024))
      ∧ (∀ x y : ℕ, x < cols * 1024 → y < rows * 1024 →
            ∃! rc : ℕ × ℕ,
              some rc ∈ (tiles.map fun e => parseRC (basename e.1))
              ∧ (rc.2 - 1) * 1024 ≤ x ∧ x < (rc.2 - 1) * 1024 + 1024
              ∧ (rc.1 - 1) * 1024 ≤ y ∧ y < (rc.1 - 1) * 1024 + 1024) := by
  have hslash : '/' ∉ (splitextBase (basename image_path)).data :=
    splitextBase_no_slash (basename_no_slash image_path)
  refine ⟨_, split_image_on_multiple resample img image_path output_dir rows cols
    hr hc hw hh hid, ?_, ?_, ?_, ?_, ?_, ?_⟩
  · rw [List.length_map, List.length_product, List.length_range, List.length_range,
      hw, hh, Nat.mul_div_cancel _ (by norm_num : (0 : ℕ) < 1024),
      Nat.mul_div_cancel _ (by norm_num : (0 : ℕ) < 1024), Nat.mul_comm]
  · intro e he
    rcases List.mem_map.mp he with ⟨rc, _, rfl⟩
    constructor
    · simp [tileEntry, PImage.crop]
    · simp [tileEntry, PImage.crop]
  · rw [List.map_map]
    have hmc : List.map
          ((fun e => parseRC (basename e.1)) ∘
            tileEntry img output_dir (splitextBase (basename image_path)))
          ((List.range rows) ×ˢ (List.range cols))
        = List.map (fun rc : ℕ × ℕ => some (rc.1 + 1, rc.2 + 1))
          ((List.range rows) ×ˢ (List.range cols)) := by
      apply List.map_congr_left
      intro rc _
      exact parseRC_tilePath output_dir _ rc.1 rc.2 hbase hslash
    rw [hmc]
    apply List.Nodup.map
    · intro a b hab
      simp only [Option.some.injEq, Prod.mk.injEq] at hab
      exact Prod.ext (by omega) (by omega)
    · exact List.Nodup.product (List.nodup_range rows) (List.nodup_range cols)
  · intro r c
    rw [List.map_map]
    constructor
    · intro hmem
      rcases List.mem_map.mp hmem with ⟨rc, hrcL, hrc⟩
      rcases rc with ⟨a, b⟩
      have hrc' : parseRC (basename (pathJoin output_dir
          (tileFileName (splitextBase (basename image_path)) a b))) = some (r, c) := hrc
      rw [parseRC_tilePath output_dir _ a b hbase hslash] at hrc'
      simp only [Option.some.injEq, Prod.mk.injEq] at hrc'
      rcases List.mem_product.mp hrcL with ⟨ha, hb⟩
      rw [List.mem_range] at ha hb
      omega
    · intro hrc
      apply List.mem_map.mpr
      refine ⟨(r - 1, c - 1), ?_, ?_⟩
      · apply List.mem_product.mpr
        rw [List.mem_range, List.mem_range]
        omega
      · show parseRC (basename (pathJoin output_dir
            (tileFileName (splitextBase (basename image_path)) (r - 1) (c - 1))))
          = some (r, c)
        rw [parseRC_tilePath output_dir _ _ _ hbase hslash]
        have h1 : r - 1 + 1 = r := by omega
        have h2 : c - 1 + 1 = c := by omega
        rw [h1, h2]
  · intro e he r c hpc
    rcases List.mem_map.mp he with ⟨rc, _, rfl⟩
    rw [show (tileEntry img output_dir (splitextBase (basename image_path)) rc).1
        = pathJoin output_dir
            (tileFileName (splitextBase (basename image_path)) rc.1 rc.2) from rfl,
      parseRC_tilePath output_dir _ rc.1 rc.2 hbase hslash] at hpc
    simp only [Option.some.injEq, Prod.mk.injEq] at hpc
    have h1 : c - 1 = rc.2 := by omega
    have h2 : r - 1 = rc.1 := by omega
    rw [h1, h2]
    rfl
  · intro x y hx hy
    refine ⟨(y / 1024 + 1, x / 1024 + 1), ⟨?_, by simp; omega, by simp; omega,
      by simp; omega, by simp; omega⟩, ?_⟩
    · rw [List.map_map]
      apply List.mem_map.mpr
      refine ⟨(y / 1024, x / 1024), ?_, ?_⟩
      · apply List.mem_product.mpr
        rw [List.mem_range, List.mem_range]
        omega
      · show parseRC (basename (pathJoin output_dir
            (tileFileName (splitextBase (basename image_path)) (y / 1024) (x / 1024))))
          = some (y / 1024 + 1, x / 1024 + 1)
        exact parseRC_tilePath output_dir _ _ _ hbase hslash
    · rintro ⟨a, b⟩ ⟨hmem, hb1, hb2, ha1, ha2⟩
      rw [List.map_map] at hmem
      rcases List.mem_map.mp hmem with ⟨rc, hrcL, hrc⟩
      rcases rc with ⟨a2, b2⟩
      have hrc' : parseRC (basename (pathJoin output_dir
          (tileFileName (splitextBase (basename image_path)) a2 b2))) = some (a, b) := hrc
      rw [parseRC_tilePath output_dir _ a2 b2 hbase hslash] at hrc'
      simp only [Option.some.injEq, Prod.mk.injEq] at hrc'
      simp only at hb1 hb2 ha1 ha2
      exact Prod.ext (by omega) (by omega)

/-! ## The Collator (`collate_tiles`) -/

/-- Step 1 of the Collator (clarify.py lines 172-179): the canonical
tile edge is the width of the first enhanced tile (tiles are assumed
square); if opening it raises, fall back to 4096 with a warning.  Each
enhanced path is paired with the outcome of `Image.open` on it (`none`
when decoding raises). -/
def detectTileSize (first : String × Option PImage) : ℕ :=
  match first.2 with
  | some img => img.width
  | none => 4096

/-- One iteration of the Collator loop (clarify.py lines 191-216):
match `R(\d+)C(\d+)` against the basename (on no match, log a warning
and continue with the next tile), convert the two groups to 0-based
indices, open the tile (the per-tile handler turns an exception into a
logged skip), resize to `tile_size × tile_size` if the decoded size
differs, and paste at `(col·tile_size, row·tile_size)`.  The offsets
are signed: a parsed coordinate 0 yields Python's -1 after the
decrement. -/
def collateBody (resample : PImage → ℕ → ℕ → PImage) (tile_size : ℕ)
    (canvas : PImage) (entry : String × Option PImage) : PImage :=
  match parseRC (basename entry.1) with
  | none => canvas
  | some (r, c) =>
    match entry.2 with
    | none => canvas
    | some tile =>
      let tile' := if tile.width ≠ tile_size ∨ tile.height ≠ tile_size
        then resample tile tile_size tile_size else tile
      canvas.paste tile' (((c : ℤ) - 1) * tile_size) (((r : ℤ) - 1) * tile_size)

/-- `collate_tiles` (clarify.py lines 165-221): on an empty enhanced
list, log an error and return without producing anything; otherwise
detect the tile size from the first tile, allocate a blank
`cols·T × rows·T` canvas, run the loop over every enhanced tile, and
save the result as `{base_name}_enhanced_full.jpg`. -/
def collate_tiles (resample : PImage → ℕ → ℕ → PImage)
    (enhanced : List (String × Option PImage)) (rows cols : ℕ)
    (output_dir base_name : String) : Option (String × PImage) :=
  match enhanced with
  | [] => none
  | first :: _ =>
    let tile_size := detectTileSize first
    let full_image := newImage (cols * tile_size) (rows * tile_size)
    some (pathJoin output_dir (base_name ++ "_enhanced_full.jpg"),
      enhanced.foldl (collateBody resample tile_size) full_image)

theorem collateBody_skip (resample : PImage → ℕ → ℕ → PImage) (T : ℕ)
    (canvas : PImage) (entry : String × Option PImage)
    (h : parseRC (basename entry.1) = none) :
    collateBody resample T canvas entry = canvas := by
  simp only [collateBody, h]

theorem collateBody_dims (resample : PImage → ℕ → ℕ → PImage) (T : ℕ)
    (canvas : PImage) (entry : String × Option PImage) :
    (collateBody resample T canvas entry).width = canvas.width ∧
    (collateBody resample T canvas entry).height = canvas.height := by
  unfold collateBody
  cases hp : parseRC (basename entry.1) with
  | none => exact ⟨rfl, rfl⟩
  | some rc =>
    rcases rc with ⟨r, c⟩
    cases ho : entry.2 with
    | none => exact ⟨rfl, rfl⟩
    | some tile => exact ⟨rfl, rfl⟩

theorem collateFold_dims (resample : PImage → ℕ → ℕ → PImage) (T : ℕ)
    (l : List (String × Option PImage)) (canvas : PImage) :
    ((l.foldl (collateBody resample T) canvas).width = canvas.width) ∧
    ((l.foldl (collateBody resample T) canvas).height = canvas.height) := by
  induction l generalizing canvas with
  | nil => exact ⟨rfl, rfl⟩
  | cons e l ih =>
    rw [List.foldl_cons]
    obtain ⟨h1, h2⟩ := ih (collateBody resample T canvas e)
    obtain ⟨h3, h4⟩ := collateBody_dims resample T canvas e
    exact ⟨h1.trans h3, h2.trans h4⟩

/-- C9: the Collator's handling of each enhanced tile.  (a) A tile
whose basename does not match `R(\d+)C(\d+)` leaves the canvas
untouched.  (b) A matching tile whose decoded size differs from the
detected tile size is first resampled to `T × T` and then pasted at
the signed offset `((c-1)·T, (r-1)·T)`; (c) a matching tile of the
right size is pasted there unchanged (`PImage.paste` is exact block
placement with no blending).  (d) Dropping a non-matching tile from
anywhere after the first entry leaves the whole collation unchanged —
the loop continues, no exception escapes (`collateBody` and the fold
are total functions). -/
theorem collate_tile_placement :
    (∀ (resample : PImage → ℕ → ℕ → PImage) (T : ℕ) (canvas : PImage)
        (path : String) (oimg : Option PImage),
      parseRC (basename path) = none →
        collateBody resample T canvas (path, oimg) = canvas)
    ∧ (∀ (resample : PImage → ℕ → ℕ → PImage) (T : ℕ) (canvas : PImage)
        (path : String) (tile : PImage) (r c : ℕ),
      parseRC (basename path) = some (r, c) →
      (tile.width ≠ T ∨ tile.height ≠ T) →
        collateBody resample T canvas (path, some tile)
          = canvas.paste (resample tile T T)
              (((c : ℤ) - 1) * T) (((r : ℤ) - 1) * T))
    ∧ (∀ (resample : PImage → ℕ → ℕ → PImage) (T : ℕ) (canvas : PImage)
        (path : String) (tile : PImage) (r c : ℕ),
      parseRC (basename path) = some (r, c) →
      tile.width = T → tile.height = T →
        collateBody resample T canvas (path, some tile)
          = canvas.paste tile (((c : ℤ) - 1) * T) (((r : ℤ) - 1) * T))
    ∧ (∀ (resample : PImage → ℕ → ℕ → PImage)
        (pre post : List (String × Option PImage)) (e : String × Option PImage)
        (rows cols : ℕ) (output_dir base_name : String),
      pre ≠ [] → parseRC (basename e.1) = none →
        collate_tiles resample (pre ++ e :: post) rows cols output_dir base_name
          = collate_tiles resample (pre ++ post) rows cols output_dir base_name) := by
  refine ⟨?_, ?_, ?_, ?_⟩
  · intro resample T canvas path oimg h
    exact collateBody_skip resample T canvas (path, oimg) h
  · intro resample T canvas path tile r c hp hne
    simp only [collateBody, hp]
    rw [if_pos hne]
  · intro resample T canvas path tile r c hp hwT hhT
    simp only [collateBody, hp]
    rw [if_neg (by simp [hwT, hhT])]
  · intro resample pre post e rows cols output_dir base_name hpre hparse
    rcases pre with _ | ⟨p0, pre'⟩
    · exact absurd rfl hpre
    · simp only [List.cons_append, collate_tiles]
      rw [List.foldl_cons, List.foldl_cons, List.foldl_append, List.foldl_append,
        List.foldl_cons, collateBody_skip _ _ _ _ hparse]

/-- Witness for `collate_tile_placement`: concrete instances of the
skip case and the resize-then-paste case. -/
theorem collate_tile_placement_witness :
    collateBody (fun _i w h' => newImage w h') 4 (newImage 8 8) ("nomatch.jpg", none)
      = newImage 8 8
    ∧ collateBody (fun _i w h' => newImage w h') 4 (newImage 8 8)
        ("xR2C3.jpg", some (newImage 7 7))
      = (newImage 8 8).paste ((fun (_i : PImage) (w h' : ℕ) => newImage w h') (newImage 7 7) 4 4)
          (((3 : ℤ) - 1) * 4) (((2 : ℤ) - 1) * 4) :=
  ⟨collate_tile_placement.1 _ 4 (newImage 8 8) "nomatch.jpg" none (by decide),
   collate_tile_placement.2.1 _ 4 (newImage 8 8) "xR2C3.jpg" (newImage 7 7) 2 3
     (by decide) (by decide)⟩

/-- C10 (implicit): for a non-empty enhanced list the Collator returns
a canvas whose dimensions are exactly `(cols·T_out, rows·T_out)`,
where `T_out` is the width of the first enhanced tile if it decodes
and the fixed fallback 4096 otherwise; no tile — whatever coordinates
its name encodes — changes those dimensions, since `PImage.paste`
clips instead of growing the canvas. -/
theorem collate_canvas_dimensions (resample : PImage → ℕ → ℕ → PImage)
    (e : String × Option PImage) (rest : List (String × Option PImage))
    (rows cols : ℕ) (output_dir base_name : String) :
    ∃ p canvas,
      collate_tiles resample (e :: rest) rows cols output_dir base_name
        = some (p, canvas)
      ∧ canvas.width = cols * detectTileSize e
      ∧ canvas.height = rows * detectTileSize e := by
  refine ⟨_, _, rfl, ?_, ?_⟩
  · exact (collateFold_dims resample (detectTileSize e) (e :: rest)
      (newImage (cols * detectTileSize e) (rows * detectTileSize e))).1
  · exact (collateFold_dims resample (detectTileSize e) (e :: rest)
      (newImage (cols * detectTileSize e) (rows * detectTileSize e))).2

/-! ## Round-trip: tiling then collating -/

/-- Folding grid-aligned 1024-pastes of crops of `img` over any list of
0-based `(row, col)` pairs: a pixel ends up with the image's own value
exactly when some pair in the list covers it, and is otherwise left as
in the initial canvas. -/
theorem foldl_paste_grid (img : PImage) (L : List (ℕ × ℕ)) (c0 : PImage)
    (x y : ℕ) :
    ((L.foldl (fun cv (rc : ℕ × ℕ) => cv.paste
        (img.crop (rc.2 * 1024) (rc.1 * 1024)
          (rc.2 * 1024 + 1024) (rc.1 * 1024 + 1024))
        ((rc.2 : ℤ) * 1024) ((rc.1 : ℤ) * 1024)) c0).pix x y)
      = if (y / 1024, x / 1024) ∈ L then img.pix x y else c0.pix x y := by
  induction L generalizing c0 with
  | nil => simp
  | cons e L ih =>
    rcases e with ⟨er, ec⟩
    rw [List.foldl_cons, ih]
    by_cases hmem : ((y / 1024, x / 1024) : ℕ × ℕ) ∈ L
    · rw [if_pos hmem, if_pos (List.mem_cons.mpr (Or.inr hmem))]
    · rw [if_neg hmem]
      by_cases he : er = y / 1024 ∧ ec = x / 1024
      · obtain ⟨he1, he2⟩ := he
        subst he1
        subst he2
        rw [if_pos (List.mem_cons.mpr (Or.inl rfl))]
        simp only [PImage.paste, PImage.crop]
        rw [if_pos (by refine ⟨?_, ?_, ?_, ?_⟩ <;> omega)]
        congr 1 <;> omega
      · rw [if_neg (by
          intro hmm
          rcases List.mem_cons.mp hmm with heq | hmm2
          · apply he
            have h1 := congrArg Prod.fst heq
            have h2 := congrArg Prod.snd heq
            simp only at h1 h2
            exact ⟨h1.symm, h2.symm⟩
          · exact hmem hmm2)]
        simp only [PImage.paste, PImage.crop]
        rw [if_neg (by
          intro hcond
          obtain ⟨h1, h2, h3, h4⟩ := hcond
          exact he ⟨by omega, by omega⟩)]

/-- C6 (round-trip): take any image whose dimensions are positive
multiples of 1024 (so the Resizer leaves it unchanged), split it with
`split_image`, and feed the produced tiles — unchanged, in order — to
`collate_tiles` with the same `(rows, cols)`.  The collated canvas has
size `(cols·1024, rows·1024)` (the detected tile size is 1024) and is
pixel-identical to the image that was tiled. -/
theorem split_collate_roundtrip (resample : PImage → ℕ → ℕ → PImage)
    (img : PImage) (image_path output_dir collate_dir collate_base : String)
    (rows cols : ℕ) (hr : 1 ≤ rows) (hc : 1 ≤ cols)
    (hw : img.width = cols * 1024) (hh : img.height = rows * 1024)
    (hid : resample img img.width img.height = img)
    (hbase : searchRC (splitextBase (basename image_path)).data = none) :
    ∃ tiles outPath canvas,
      split_image resample (some img) image_path output_dir
        = SplitResult.ok tiles rows cols
      ∧ collate_tiles resample (tiles.map fun e => (e.1, some e.2)) rows cols
          collate_dir collate_base = some (outPath, canvas)
      ∧ canvas.width = cols * 1024 ∧ canvas.height = rows * 1024
      ∧ ∀ x y : ℕ, x < cols * 1024 → y < rows * 1024 →
          canvas.pix x y = img.pix x y := by
  have hslash : '/' ∉ (splitextBase (basename image_path)).data :=
    splitextBase_no_slash (basename_no_slash image_path)
  -- the tile files handed back to the Collator, indexed by the grid
  have hentries : (((List.range rows) ×ˢ (List.range cols)).map
        (tileEntry img output_dir (splitextBase (basename image_path)))).map
          (fun e => (e.1, some e.2))
      = ((List.range rows) ×ˢ (List.range cols)).map
          (fun rc : ℕ × ℕ =>
            (pathJoin output_dir
              (tileFileName (splitextBase (basename image_path)) rc.1 rc.2),
             some (img.crop (rc.2 * 1024) (rc.1 * 1024)
               (rc.2 * 1024 + 1024) (rc.1 * 1024 + 1024)))) := by
    rw [List.map_map]
    rfl
  -- the grid is non-empty and starts at (0, 0)
  obtain ⟨rest, hLdec⟩ : ∃ rest,
      (List.range rows) ×ˢ (List.range cols) = ((0, 0) : ℕ × ℕ) :: rest := by
    obtain ⟨r', rfl⟩ : ∃ r', rows = r' + 1 := ⟨rows - 1, by omega⟩
    obtain ⟨c', rfl⟩ : ∃ c', cols = c' + 1 := ⟨cols - 1, by omega⟩
    rw [List.range_succ_eq_map, List.range_succ_eq_map]
    exact ⟨_, rfl⟩
  -- the body applied to a produced tile file is a grid-aligned paste
  have hbody : ∀ (cv : PImage) (rc : ℕ × ℕ),
      collateBody resample 1024 cv
          (pathJoin output_dir
            (tileFileName (splitextBase (basename image_path)) rc.1 rc.2),
           some (img.crop (rc.2 * 1024) (rc.1 * 1024)
             (rc.2 * 1024 + 1024) (rc.1 * 1024 + 1024)))
        = cv.paste (img.crop (rc.2 * 1024) (rc.1 * 1024)
            (rc.2 * 1024 + 1024) (rc.1 * 1024 + 1024))
            ((rc.2 : ℤ) * 1024) ((rc.1 : ℤ) * 1024) := by
    intro cv rc
    have hp := parseRC_tilePath output_dir (splitextBase (basename image_path))
      rc.1 rc.2 hbase hslash
    simp only [collateBody, hp]
    rw [if_neg (by simp [PImage.crop])]
    have hL1 : (((rc.1 + 1 : ℕ) : ℤ) - 1) * ((1024 : ℕ) : ℤ)
        = ((rc.1 : ℕ) : ℤ) * 1024 := by push_cast; ring
    have hL2 : (((rc.2 + 1 : ℕ) : ℤ) - 1) * ((1024 : ℕ) : ℤ)
        = ((rc.2 : ℕ) : ℤ) * 1024 := by push_cast; ring
    rw [hL1, hL2]
  -- the detected tile size is 1024 (the first tile decodes to 1024 wide)
  have hT : detectTileSize
      (pathJoin output_dir
        (tileFileName (splitextBase (basename image_path)) (0 : ℕ) (0 : ℕ)),
       some (img.crop (0 * 1024) (0 * 1024) (0 * 1024 + 1024) (0 * 1024 + 1024)))
      = 1024 := by
    simp [detectTileSize, PImage.crop]
  -- the collation equation, with explicit output path and canvas
  have hcollate : collate_tiles resample
      ((((List.range rows) ×ˢ (List.range cols)).map
          (tileEntry img output_dir (splitextBase (basename image_path)))).map
        (fun e => (e.1, some e.2)))
      rows cols collate_dir collate_base
    = some (pathJoin collate_dir (collate_base ++ "_enhanced_full.jpg"),
        (((List.range rows) ×ˢ (List.range cols)).map
          (fun rc : ℕ × ℕ =>
            (pathJoin output_dir
              (tileFileName (splitextBase (basename image_path)) rc.1 rc.2),
             some (img.crop (rc.2 * 1024) (rc.1 * 1024)
               (rc.2 * 1024 + 1024) (rc.1 * 1024 + 1024))))).foldl
          (collateBody resample 1024) (newImage (cols * 1024) (rows * 1024))) := by
    rw [hentries, hLdec, List.map_cons]
    simp only [collate_tiles, hT]
  refine ⟨_, _, _,
    split_image_on_multiple resample img image_path output_dir rows cols
      hr hc hw hh hid, hcollate, ?_, ?_, ?_⟩
  · exact (collateFold_dims resample 1024 _ (newImage (cols * 1024) (rows * 1024))).1
  · exact (collateFold_dims resample 1024 _ (newImage (cols * 1024) (rows * 1024))).2
  · intro x y hx hy
    have hfold : (((List.range rows) ×ˢ (List.range cols)).map
          (fun rc : ℕ × ℕ =>
            (pathJoin output_dir
              (tileFileName (splitextBase (basename image_path)) rc.1 rc.2),
             some (img.crop (rc.2 * 1024) (rc.1 * 1024)
               (rc.2 * 1024 + 1024) (rc.1 * 1024 + 1024))))).foldl
          (collateBody resample 1024) (newImage (cols * 1024) (rows * 1024))
        = ((List.range rows) ×ˢ (List.range cols)).foldl
            (fun cv (rc : ℕ × ℕ) => cv.paste
              (img.crop (rc.2 * 1024) (rc.1 * 1024)
                (rc.2 * 1024 + 1024) (rc.1 * 1024 + 1024))
              ((rc.2 : ℤ) * 1024) ((rc.1 : ℤ) * 1024))
            (newImage (cols * 1024) (rows * 1024)) := by
      rw [List.foldl_map]
      have hfun : (fun (cv : PImage) (rc : ℕ × ℕ) => collateBody resample 1024 cv
            (pathJoin output_dir
              (tileFileName (splitextBase (basename image_path)) rc.1 rc.2),
             some (img.crop (rc.2 * 1024) (rc.1 * 1024)
               (rc.2 * 1024 + 1024) (rc.1 * 1024 + 1024))))
          = (fun cv rc => cv.paste
              (img.crop (rc.2 * 1024) (rc.1 * 1024)
                (rc.2 * 1024 + 1024) (rc.1 * 1024 + 1024))
              ((rc.2 : ℤ) * 1024) ((rc.1 : ℤ) * 1024)) := by
        funext cv rc
        exact hbody cv rc
      rw [hfun]
    rw [hfold, foldl_paste_grid img _ _ x y,
      if_pos (List.mem_product.mpr
        ⟨List.mem_range.mpr (by omega), List.mem_range.mpr (by omega)⟩)]

/-- A resampling kernel usable in witnesses: identity at the image's
own size (as Lanczos is), blank otherwise. -/
def idResample (img : PImage) (w h : ℕ) : PImage :=
  if w = img.width ∧ h = img.height then img else newImage w h

theorem idResample_self (img : PImage) :
    idResample img img.width img.height = img := by
  simp [idResample]

/-- Witness for `split_image_grid_bijection`: a 1024 × 1024 source
splits into a single tile grid. -/
theorem split_image_grid_bijection_witness :
    ∃ tiles, split_image idResample (some (newImage 1024 1024)) "cat.jpg" "work"
      = SplitResult.ok tiles 1 1 := by
  obtain ⟨tiles, heq, -⟩ :=
    split_image_grid_bijection idResample (newImage 1024 1024) "cat.jpg" "work"
      1 1 (by decide) (by decide) (by decide) (by decide)
      (idResample_self _) (by decide)
  exact ⟨tiles, heq⟩

/-- Witness for `split_collate_roundtrip` on the same 1024 × 1024
source: the round trip reproduces the canvas dimensions. -/
theorem split_collate_roundtrip_witness :
    ∃ tiles outPath canvas,
      split_image idResample (some (newImage 1024 1024)) "cat.jpg" "work"
        = SplitResult.ok tiles 1 1
      ∧ collate_tiles idResample (tiles.map fun e => (e.1, some e.2)) 1 1
          "work" "cat" = some (outPath, canvas)
      ∧ canvas.width = 1 * 1024 ∧ canvas.height = 1 * 1024
      ∧ ∀ x y : ℕ, x < 1 * 1024 → y < 1 * 1024 →
          canvas.pix x y = (newImage 1024 1024).pix x y :=
  split_collate_roundtrip idResample (newImage 1024 1024) "cat.jpg" "work"
    "work" "cat" 1 1 (by decide) (by decide) (by decide) (by decide)
    (idResample_self _) (by decide)

/-! ## The Enhancement Client Adapter (`process_tiles`)

The remote gradio service is external.  What `process_tiles` observes
of it during one call is: whether `Client(...)` raises, and then — once
`submit` has been called — a sequence of polled progress readings
followed by either an exception (during submission, polling or
`job.result()`) or the final 3-tuple, plus whether the follow-up
`/open_output_folder` call raises.  `RemoteOutcome` enumerates these
observable behaviours; `process_tiles` below is the script's control
flow (clarify.py lines 80-163) over them.  The status-report file is
modelled as the list of lines written to it (each `f.write` ends its
text with a newline; the `"\n\n"` write contributes one empty line). -/

/-- One record of the service's `recent_enhancements` sequence. -/
structure Enhancement where
  image : String
  caption : String

/-- Python's `int()` truncation toward zero, on an exact rational. -/
def pyTrunc (q : ℚ) : ℤ := Int.tdiv q.num (q.den : ℤ)

/-- `min(100, max(0, int(progress * 100)))`. -/
def normalizePercent (p : ℚ) : ℤ := min 100 (max 0 (pyTrunc (p * 100)))

/-- The progress percentages logged by the polling loop for a given
sequence of polled readings: a reading of `none` stands for a tick with
no usable numeric progress value (no `progress_data`, or a value that
is not an int/float — those ticks log nothing and do not update
`last_progress`); `some p` is a numeric reading from any of the three
recognised shapes.  A percentage is logged only when the raw reading
differs from the last one seen (`last_progress` starts at -1). -/
def progressLogsOf (ticks : List (Option ℚ)) : List ℤ :=
  (ticks.foldl
    (fun (acc : List ℤ × ℚ) t =>
      match t with
      | none => acc
      | some p => if p ≠ acc.2 then (acc.1 ++ [normalizePercent p], p) else acc)
    ([], -1)).1

/-- The observable behaviour of the remote service during one call,
after a successful connection and a non-empty tile list (so `submit`
is reached): the job submission raises; or polling raises after some
ticks; or `job.result()` raises; or everything succeeds — with the
retrieved 3-tuple and whether the follow-up open-output-folder call
raises. -/
inductive RemoteOutcome where
  | submitFail (msg : String)
  | pollFail (ticks : List (Option ℚ)) (msg : String)
  | resultFail (ticks : List (Option ℚ)) (msg : String)
  | success (ticks : List (Option ℚ)) (status : String)
      (recent : List Enhancement) (beforeAfter : Option (String × String))
      (openFolderError : Option String)

/-- What one `process_tiles` call produces: the returned list of
enhanced paths, the final content of the status-report file (`none` if
it was never written), whether `client.submit` was invoked, and the
progress percentages logged. -/
structure ProcOutput where
  enhanced : List String
  statusLines : Option (List String)
  submitCalled : Bool
  progressLogs : List ℤ

/-- The lines of the success-path status report (clarify.py lines
140-147). -/
def statusReportLines (status : String) (recent : List Enhancement)
    (beforeAfter : Option (String × String)) : List String :=
  ["Processing Status: " ++ status, "", "Recent Enhancements:"]
    ++ recent.map (fun e => "Image: " ++ e.image ++ ", Caption: " ++ e.caption)
    ++ (match beforeAfter with
        | none => []
        | some (b, a) => ["", "Before: " ++ b, "After: " ++ a])

/-- `process_tiles` (clarify.py lines 80-163).  `connect` is the
outcome of `Client("http://127.0.0.1:7860/")`.  Control flow: a
connection failure returns `[]` before anything else; an empty tile
list returns `[]` before submitting; otherwise the job is submitted
and the `try` block plays out according to `outcome` — any exception
is caught by the `except` handler, which overwrites the status file
with a single `Error: <message>` line and returns `[]`.  Note the
`/open_output_folder` call sits inside the same `try`: if it raises
after a successful retrieval, the handler runs all the same. -/
def process_tiles (connect : Except String Unit) (tile_paths : List String)
    (outcome : RemoteOutcome) : ProcOutput :=
  match connect with
  | Except.error _ => ⟨[], none, false, []⟩
  | Except.ok _ =>
    if tile_paths = [] then ⟨[], none, false, []⟩
    else
      match outcome with
      | RemoteOutcome.submitFail msg =>
          ⟨[], some ["Error: " ++ msg], true, []⟩
      | RemoteOutcome.pollFail ticks msg =>
          ⟨[], some ["Error: " ++ msg], true, progressLogsOf ticks⟩
      | RemoteOutcome.resultFail ticks msg =>
          ⟨[], some ["Error: " ++ msg], true, progressLogsOf ticks⟩
      | RemoteOutcome.success ticks status recent beforeAfter openFolderError =>
          match openFolderError with
          | some msg =>
              ⟨[], some ["Error: " ++ msg], true, progressLogsOf ticks⟩
          | none =>
              ⟨recent.map (fun e => e.image),
               some (statusReportLines status recent beforeAfter), true,
               progressLogsOf ticks⟩

/-- C7: handed an empty tile list, the adapter returns an empty result
at once: no `submit` call, no status file written, no progress log
lines — whatever the connection outcome and whatever the service would
have done. -/
theorem process_tiles_empty_input (connect : Except String Unit)
    (outcome : RemoteOutcome) :
    process_tiles connect [] outcome
      = ⟨[], none, false, []⟩ := by
  cases connect with
  | error e => rfl
  | ok u => rfl

theorem errLine_ne_recent (msg : String) :
    "Error: " ++ msg ≠ "Recent Enhancements:" := by
  intro h
  have h2 := congrArg (fun s : String => s.data.head?) h
  simp only at h2
  have h3 : ("Error: " ++ msg).data.head? = some 'E' := by
    rw [String.data_append]
    rfl
  rw [h3] at h2
  exact absurd h2 (by decide)

/-- The exceptions the `except` handler of `process_tiles` recovers
from: submission, polling, or result retrieval. -/
def midJobFailure : RemoteOutcome → Option String
  | RemoteOutcome.submitFail msg => some msg
  | RemoteOutcome.pollFail _ msg => some msg
  | RemoteOutcome.resultFail _ msg => some msg
  | RemoteOutcome.success _ _ _ _ _ => none

/-- C8: whenever an exception is raised during job submission, polling
or result retrieval, the adapter catches it (it still returns a value:
the process does not crash), writes a status report whose content is
the single line `Error: <message>` — in particular no
`Recent Enhancements:` section header appears — and returns an empty
enhanced-tile list. -/
theorem process_tiles_midjob_error (tile_paths : List String)
    (outcome : RemoteOutcome) (msg : String)
    (htp : tile_paths ≠ []) (hfail : midJobFailure outcome = some msg) :
    (process_tiles (Except.ok ()) tile_paths outcome).enhanced = []
    ∧ (process_tiles (Except.ok ()) tile_paths outcome).statusLines
        = some ["Error: " ++ msg]
    ∧ (∀ ls, (process_tiles (Except.ok ()) tile_paths outcome).statusLines
          = some ls →
        ls.length = 1 ∧ ∀ l ∈ ls, l ≠ "Recent Enhancements:") := by
  cases outcome with
  | submitFail m =>
    simp only [midJobFailure, Option.some.injEq] at hfail
    subst hfail
    refine ⟨by simp [process_tiles, if_neg htp],
      by simp [process_tiles, if_neg htp], ?_⟩
    intro ls hls
    simp only [process_tiles, if_neg htp, Option.some.injEq] at hls
    subst hls
    refine ⟨rfl, ?_⟩
    intro l hl
    rcases List.mem_singleton.mp hl with rfl
    exact errLine_ne_recent m
  | pollFail t m =>
    simp only [midJobFailure, Option.some.injEq] at hfail
    subst hfail
    refine ⟨by simp [process_tiles, if_neg htp],
      by simp [process_tiles, if_neg htp], ?_⟩
    intro ls hls
    simp only [process_tiles, if_neg htp, Option.some.injEq] at hls
    subst hls
    refine ⟨rfl, ?_⟩
    intro l hl
    rcases List.mem_singleton.mp hl with rfl
    exact errLine_ne_recent m
  | resultFail t m =>
    simp only [midJobFailure, Option.some.injEq] at hfail
    subst hfail
    refine ⟨by simp [process_tiles, if_neg htp],
      by simp [process_tiles, if_neg htp], ?_⟩
    intro ls hls
    simp only [process_tiles, if_neg htp, Option.some.injEq] at hls
    subst hls
    refine ⟨rfl, ?_⟩
    intro l hl
    rcases List.mem_singleton.mp hl with rfl
    exact errLine_ne_recent m
  | success t s r b o =>
    simp only [midJobFailure] at hfail
    exact absurd hfail (by simp)

/-- Witness for `process_tiles_midjob_error`: a concrete submission
failure. -/
theorem process_tiles_midjob_error_witness :
    (process_tiles (Except.ok ()) ["t1.jpg"] (RemoteOutcome.submitFail ("boom"))).enhanced = []
    ∧ (process_tiles (Except.ok ()) ["t1.jpg"]
        (RemoteOutcome.submitFail ("boom"))).statusLines = some ["Error: " ++ "boom"]
    ∧ (∀ ls, (process_tiles (Except.ok ()) ["t1.jpg"]
          (RemoteOutcome.submitFail ("boom"))).statusLines = some ls →
        ls.length = 1 ∧ ∀ l ∈ ls, l ≠ "Recent Enhancements:") :=
  process_tiles_midjob_error ["t1.jpg"] (RemoteOutcome.submitFail ("boom")) ("boom")
    (by decide) rfl

/-- C2, counterexample: the no-argument `/open_output_folder` call is
made *inside* the adapter's single `try` block (clarify.py line 153).
If it raises after a successful result retrieval, the general handler
runs: here the service returned one enhancement (`"e1.jpg"`), the
report had been written successfully, and the open-folder call then
raised `"boom"` — yet the adapter returns `[]` instead of
`["e1.jpg"]`, and the status file ends up as the single `Error: boom`
line instead of keeping its Processing Status / Recent Enhancements
sections.  So such a failure is neither non-fatal to the return value
nor merely logged. -/
theorem process_tiles_open_folder_counterexample :
    (process_tiles (Except.ok ()) ["t1.jpg"]
        (RemoteOutcome.success [] "Done" [⟨"e1.jpg", "cap"⟩] none (some ("boom"))))
      = ⟨[], some ["Error: boom"], true, []⟩
    ∧ (process_tiles (Except.ok ()) ["t1.jpg"]
        (RemoteOutcome.success [] "Done" [⟨"e1.jpg", "cap"⟩] none (some ("boom")))).enhanced
      ≠ ["e1.jpg"]
    ∧ (process_tiles (Except.ok ()) ["t1.jpg"]
        (RemoteOutcome.success [] "Done" [⟨"e1.jpg", "cap"⟩] none (some ("boom")))).statusLines
      ≠ some (statusReportLines ("Done") [⟨"e1.jpg", "cap"⟩] none) := by
  refine ⟨rfl, by decide, by decide⟩

/-- C2 as amended: when the open-output-folder call raises after a
successful retrieval, the exception does not escape `process_tiles`
and is not re-raised (the adapter still returns normally), but it is
handled by the general `except` path: the status report is overwritten
with the single `Error: <message>` line and the adapter returns an
empty list instead of the retrieved enhanced-tile paths. -/
theorem process_tiles_open_folder_failure (tile_paths : List String)
    (ticks : List (Option ℚ)) (status : String) (recent : List Enhancement)
    (beforeAfter : Option (String × String)) (msg : String)
    (htp : tile_paths ≠ []) :
    process_tiles (Except.ok ()) tile_paths
        (RemoteOutcome.success ticks status recent beforeAfter (some msg))
      = ⟨[], some ["Error: " ++ msg], true, progressLogsOf ticks⟩ := by
  simp [process_tiles, if_neg htp]

/-- Witness for `process_tiles_open_folder_failure`. -/
theorem process_tiles_open_folder_failure_witness :
    process_tiles (Except.ok ()) ["t1.jpg"]
        (RemoteOutcome.success [] "Done" [⟨"e1.jpg", "cap"⟩] none (some ("boom")))
      = ⟨[], some ["Error: " ++ "boom"], true, progressLogsOf []⟩ :=
  process_tiles_open_folder_failure ["t1.jpg"] [] "Done" [⟨"e1.jpg", "cap"⟩]
    none ("boom") (by decide)

/-! ## The Pipeline Driver (`splitandenhance`) -/

/-- How one `splitandenhance` run ends.  `raised` is an uncaught
exception escaping the function — the driver has no handler of its
own. -/
inductive DriverResult where
  | raised (msg : String)
  | abortedNoTiles
  | noEnhanced (statusLines : Option (List String))
  | completed (statusLines : Option (List String))
      (collated : Option (String × PImage))

/-- `splitandenhance` (clarify.py lines 223-242).  The first statement
is `tile_paths, rows, cols = split_image(source_image, folder)`.  When
the source image cannot be decoded, `split_image` returns the bare
list `[]`, and unpacking an empty list into three names raises a
`ValueError` that nothing in the driver catches — so the
`if not tile_paths: ... return` abort branch below it is never reached
on that path.  On a successful split the driver submits the tile paths
to `process_tiles`, and runs `collate_tiles` only when the enhanced
list is non-empty (`fs` plays `Image.open` for the enhanced tile files
the service wrote). -/
def splitandenhance (resample : PImage → ℕ → ℕ → PImage)
    (fs : String → Option PImage) (decoded : Option PImage)
    (source_image folder : String) (connect : Except String Unit)
    (outcome : RemoteOutcome) : DriverResult :=
  match split_image resample decoded source_image folder with
  | SplitResult.failed =>
      DriverResult.raised ("ValueError: not enough values to unpack (expected 3, got 0)")
  | SplitResult.ok tiles rows cols =>
    if tiles.map (fun e => e.1) = [] then DriverResult.abortedNoTiles
    else
      let out := process_tiles connect (tiles.map (fun e => e.1)) outcome
      if out.enhanced = [] then DriverResult.noEnhanced out.statusLines
      else
        DriverResult.completed out.statusLines
          (collate_tiles resample (out.enhanced.map (fun p => (p, fs p)))
            rows cols folder (splitextBase (basename source_image)))

/-- C1, evaluated on the failing input: when the source image cannot be
decoded, `split_image` indeed returns its empty result, and no
enhancement submission and no collation happen — but not because the
driver aborts cleanly: the driver's tuple unpacking of the empty list
raises a `ValueError` that escapes `splitandenhance`, contradicting
the claim (and the intent of the dead `if not tile_paths` abort
branch).  This holds for every service behaviour and file system. -/
theorem splitandenhance_decode_failure_raises
    (resample : PImage → ℕ → ℕ → PImage) (fs : String → Option PImage)
    (source_image folder : String) (connect : Except String Unit)
    (outcome : RemoteOutcome) :
    splitandenhance resample fs none source_image folder connect outcome
      = DriverResult.raised
          ("ValueError: not enough values to unpack (expected 3, got 0)") := rfl

/-- `split_image` itself does return the empty result on a decode
failure, as the claim says — the slip is in the driver. -/
theorem split_image_decode_failure (resample : PImage → ℕ → ℕ → PImage)
    (image_path output_dir : String) :
    split_image resample none image_path output_dir = SplitResult.failed := rfl
